import Mathlib

/-!
Verification of the LC-MS feature-extraction core of the repository
(`ms_feature_validation/lcms.py`) against its natural-language specification.

The Python code is shallowly embedded over exact rationals (`ℚ`): numpy
arrays become `List ℚ`, fallible operations return `Except PyErr`, and the
IEEE `NaN` produced by `numpy.mean` of an empty slice is modelled by an
explicit `QN.nan` tag.  Every definition is a direct translation of the
corresponding source function, keeping the source's evaluation order and
its index arithmetic (including the places where that arithmetic is wrong).
-/

set_option maxRecDepth 4000

/-- Python exceptions raised by the embedded code, tagged by raise site:
`indexError` for out-of-bounds numpy indexing (including `reduceat` on bad
indices), `invalidArgument` for the explicit argument-validation
`raise ValueError(msg)` statements, `keyError` for a failed dict lookup,
`dimError` for `numpy.zeros` with a negative dimension, `emptyMin` for
`min`/`max` of an empty array, `outOfDomain` for `interp1d` evaluation
outside the data domain, `interpShort` for `interp1d` built from fewer than
two points, and `badKind` for an unrecognized interpolation kind. -/
inductive PyErr where
  | indexError
  | invalidArgument
  | keyError
  | dimError
  | emptyMin
  | outOfDomain
  | interpShort
  | badKind
  deriving DecidableEq, Repr

/-- Extended rational: a numeric value or the IEEE `NaN` that `numpy.mean`
returns on an empty slice. -/
inductive QN where
  | nan
  | val (q : ℚ)
  deriving DecidableEq, Repr

/-- Subtraction on extended rationals: `NaN` propagates, as in IEEE
arithmetic. -/
def QN.sub : QN → QN → QN
  | QN.val a, QN.val b => QN.val (a - b)
  | _, _ => QN.nan

/-- One centroid scan as supplied by the scan accessor: retention time and
the mass-sorted peak list `(mz, intensity)` split into two aligned
sequences (`getRT` / `get_peaks` in pyopenms). -/
structure Scan where
  rt : ℚ
  mzs : List ℚ
  ints : List ℚ
  deriving DecidableEq

/-- The scan container (`pyopenms.MSExperiment`): a scan count and a total
accessor from scan index to scan (the scan accessor is an external
collaborator assumed well-behaved). -/
structure MSExperiment where
  nspectra : ℕ
  spectrum : ℕ → Scan

/-- Auxiliary recursion for `find_closest`: scan the remaining list keeping
the index of the smallest absolute difference seen so far; a later element
replaces the current best only on a strictly smaller difference, so the
first (lowest) index wins ties. -/
def fcAux (v : ℚ) : List ℚ → ℕ → ℕ → ℚ → ℕ
  | [], _, best, _ => best
  | x :: rest, i, best, bestd =>
      if |x - v| < bestd then fcAux v rest (i + 1) i |x - v|
      else fcAux v rest (i + 1) best bestd

/-- Modelled from the spec: `find_closest` lives in `utils.py`, which is not
part of the provided sources.  Per the spec (sections 4.3 and 4.6) it
returns, for a query value, the index of the element of `xs` nearest by
absolute difference; ties keep the lowest index.  Empty input returns 0. -/
def find_closest (xs : List ℚ) (v : ℚ) : ℕ :=
  match xs with
  | [] => 0
  | x :: rest => fcAux v rest 1 0 |x - v|

/-- Vectorized `find_closest`, as used with an array argument. -/
def find_closest_vec (xs : List ℚ) (vs : List ℚ) : List ℕ :=
  vs.map (find_closest xs)

/-- Translation of `numpy.searchsorted(xs, v)` with the default
`side="left"` on an ascending array: the number of elements strictly below
`v`. -/
def searchsorted_left (xs : List ℚ) (v : ℚ) : ℕ :=
  (xs.takeWhile (fun x => x < v)).length

/-- Python slice `l[a:b]` for `0 ≤ a ≤ b` (truncating at the end of the
list, as in Python). -/
def sliceL (l : List α) (a b : ℕ) : List α :=
  (l.drop a).take (b - a)

/-- Boolean-mask selection `l[mask]` of numpy. -/
def maskSelect (l : List α) (m : List Bool) : List α :=
  (l.zip m).filterMap (fun p => if p.2 then some p.1 else none)

/-- Auxiliary recursion for `argminIdx`. -/
def argminAux : List ℚ → ℕ → ℕ → ℚ → ℕ
  | [], _, best, _ => best
  | x :: rest, i, best, bestv =>
      if x < bestv then argminAux rest (i + 1) i x
      else argminAux rest (i + 1) best bestv

/-- Translation of `numpy.argmin`: index of the first occurrence of the
minimum (0 on empty input). -/
def argminIdx : List ℚ → ℕ
  | [] => 0
  | x :: rest => argminAux rest 1 0 x

/-- The 13C-12C mass difference used as isotope spacing in the source. -/
def dmC13 : ℚ := 1003355 / 1000000

/-- Translation of `find_isotopic_distribution_aux` (lcms.py 322-358): find
the observed peak closest to the monoisotopic mass; if it is outside the
tolerance return the empty index set, otherwise predict `n_isotopes`
theoretical masses at spacing `dm / q` above it, take the closest observed
peak for each, and keep the indices of those within tolerance. -/
def find_isotopic_distribution_aux (mz : List ℚ) (mz_ft : ℚ) (q : ℕ)
    (n_isotopes : ℕ) (tol : ℚ) : List ℕ :=
  let mono_index := find_closest mz mz_ft
  let mz_mono := mz.getD mono_index 0
  if |mz_mono - mz_ft| > tol then []
  else
    let mz_theoretic := (List.range n_isotopes).map
      (fun k => mz_mono + (k : ℚ) * dmC13 / (q : ℚ))
    let closest_ind := find_closest_vec mz mz_theoretic
    (closest_ind.zip mz_theoretic).filterMap
      (fun p => if |mz.getD p.1 0 - p.2| ≤ tol then some p.1 else none)

/-- Loop of `find_isotopic_distribution` (lcms.py 389-396), translated
faithfully: the candidate `tmp` replaces `best_peaks` whenever
`tmp.size > n_peaks`, and — exactly as in the source — `n_peaks` is never
updated, so it stays at its initial value 0 throughout the loop. -/
def fidLoop (mz : List ℚ) (mz_mono : ℚ) (n_isotopes : ℕ) (tol : ℚ) :
    List ℕ → List ℕ → ℕ → List ℕ
  | [], best_peaks, _ => best_peaks
  | q :: qs, best_peaks, n_peaks =>
      let tmp := find_isotopic_distribution_aux mz mz_mono q n_isotopes tol
      if n_peaks < tmp.length then fidLoop mz mz_mono n_isotopes tol qs tmp n_peaks
      else fidLoop mz mz_mono n_isotopes tol qs best_peaks n_peaks

/-- Translation of `find_isotopic_distribution` (lcms.py 361-396): try each
charge state `q = 1 .. q_max` in order and keep a candidate set per the
(buggy) update rule of `fidLoop`. -/
def find_isotopic_distribution (mz : List ℚ) (mz_mono : ℚ) (q_max : ℕ)
    (n_isotopes : ℕ) (tol : ℚ) : List ℕ :=
  fidLoop mz mz_mono n_isotopes tol ((List.range q_max).map (· + 1)) [] 0

/-- Spectrum used to exercise the isotopic search: a monoisotopic peak at
100 and a second peak 45 millionths away from the exact charge-1
isotope position 101.003355. -/
def mzIsoEx : List ℚ := [100, 1010034 / 10000]

/-- A list of `n` rational zeros (`numpy.zeros(n)`). -/
def npZeros (n : ℕ) : List ℚ :=
  List.replicate n 0

/-- Bounds-checked scalar store `l[i] = v` (numpy raises `IndexError` when
the index is out of range). -/
def setChecked (l : List ℚ) (i : ℕ) (v : ℚ) : Except PyErr (List ℚ) :=
  if i < l.length then Except.ok (l.set i v) else Except.error PyErr.indexError

/-- Bounds-checked column store `matrix[:, ksp] = col` for a matrix kept as
a list of rows that were all allocated with `size` columns. -/
def setColumn (size : ℕ) (rows : List (List ℚ)) (ksp : ℕ) (col : List ℚ) :
    Except PyErr (List (List ℚ)) :=
  if ksp < size then Except.ok ((rows.zip col).map (fun p => p.1.set ksp p.2))
  else Except.error PyErr.indexError

/-- Translation of lcms.py 95-100: clamp the searchsorted interval bounds
to the last valid index (`ind_sp[ind_sp >= int_sp.size] = int_sp.size - 1`)
and evaluate `np.add.reduceat(int_sp, ind_sp)[::2]` together with the raw
pair widths used later as the `mean` normalization.  `reduceat` sums the
slice `a[lo:hi]` when `lo < hi` and otherwise yields the single element
`a[lo]`; with an empty data array and nonempty indices the clamped index is
-1 and numpy raises `IndexError`; with an empty index list the result is
empty. -/
def eicCol (a : List ℚ) (ind : List (ℕ × ℕ)) :
    Except PyErr (List ℚ × List ℤ) :=
  if ind.isEmpty then Except.ok ([], [])
  else if a.isEmpty then Except.error PyErr.indexError
  else
    let n := a.length
    let cl := ind.map (fun p => (min p.1 (n - 1), min p.2 (n - 1)))
    Except.ok
      (cl.map (fun p => if p.1 < p.2 then (sliceL a p.1 p.2).sum else a.getD p.1 0),
       cl.map (fun p => (p.2 : ℤ) - (p.1 : ℤ)))

/-- One iteration body of the scan loop of `chromatogram` (lcms.py 91-107),
in source order: read the scan, store its retention time at the absolute
index `ksp`, locate each target window with two sorted searches, accumulate
the window with `reduceat`, store the column at the absolute index `ksp`,
then apply the accumulator mode (`mean` divides by the pair widths with
zero widths replaced by 1; `sum` is a no-op; anything else raises). -/
def eicBody (msexp : MSExperiment) (intervals : List (ℚ × ℚ))
    (accumulator : String) (size : ℕ) (ksp : ℕ)
    (st : List ℚ × List (List ℚ)) : Except PyErr (List ℚ × List (List ℚ)) :=
  match setChecked st.1 ksp (msexp.spectrum ksp).rt with
  | Except.error e => Except.error e
  | Except.ok rtNew =>
      match eicCol (msexp.spectrum ksp).ints
          (intervals.map (fun p =>
            (searchsorted_left (msexp.spectrum ksp).mzs p.1,
              searchsorted_left (msexp.spectrum ksp).mzs p.2))) with
      | Except.error e => Except.error e
      | Except.ok cn =>
          match setColumn size st.2 ksp cn.1 with
          | Except.error e => Except.error e
          | Except.ok chromNew =>
              if accumulator = "mean" then
                match setColumn size chromNew ksp
                    ((cn.1.zip (cn.2.map (fun z => if z = 0 then 1 else z))).map
                      (fun p => p.1 / (p.2 : ℚ))) with
                | Except.error e => Except.error e
                | Except.ok chrom2 => Except.ok (rtNew, chrom2)
              else if accumulator = "sum" then Except.ok (rtNew, chromNew)
              else Except.error PyErr.invalidArgument

/-- The scan loop `for ksp in range(start, end)` of `chromatogram`, with
explicit fuel `end - ksp`. -/
def eicLoop (msexp : MSExperiment) (intervals : List (ℚ × ℚ))
    (accumulator : String) (size : ℕ) :
    ℕ → ℕ → List ℚ × List (List ℚ) → Except PyErr (List ℚ × List (List ℚ))
  | 0, _, st => Except.ok st
  | fuel + 1, ksp, st =>
      match eicBody msexp intervals accumulator size ksp st with
      | Except.error e => Except.error e
      | Except.ok stNew =>
          eicLoop msexp intervals accumulator size fuel (ksp + 1) stNew

/-- Translation of `chromatogram` (lcms.py 51-108): build the interleaved
window bounds `m - window, m + window` per target, default `start`/`end` to
the full scan range, allocate the outputs with `end - start` entries
(numpy raises on a negative dimension) and run the scan loop. -/
def chromatogram (msexp : MSExperiment) (mz : List ℚ) (window : ℚ)
    (startOpt endOpt : Option ℕ) (accumulator : String) :
    Except PyErr (List ℚ × List (List ℚ)) :=
  let intervals := mz.map (fun m => (m - window, m + window))
  let startv := startOpt.getD 0
  let endv := endOpt.getD msexp.nspectra
  if endv < startv then Except.error PyErr.dimError
  else
    let size := endv - startv
    eicLoop msexp intervals accumulator size size startv
      (npZeros size, List.replicate mz.length (npZeros size))

/-- Single-scan experiment with peaks at 100 and 200: nothing lies in the
window [149, 151] of target mass 150. -/
def msexpGap : MSExperiment :=
  { nspectra := 1
    spectrum := fun _ => { rt := 0, mzs := [100, 200], ints := [10, 20] } }

/-- Monadic map over `Except`, written by direct recursion so proofs can
unfold it. -/
def mapME (f : α → Except PyErr β) : List α → Except PyErr (List β)
  | [] => Except.ok []
  | a :: l =>
      match f a with
      | Except.error e => Except.error e
      | Except.ok b =>
          match mapME f l with
          | Except.error e => Except.error e
          | Except.ok bs => Except.ok (b :: bs)

/-- `numpy.ndarray.min()`: raises on an empty array. -/
def npMinE (l : List ℚ) : Except PyErr ℚ :=
  match l with
  | [] => Except.error PyErr.emptyMin
  | x :: rest => Except.ok (rest.foldl min x)

/-- `numpy.ndarray.max()`: raises on an empty array. -/
def npMaxE (l : List ℚ) : Except PyErr ℚ :=
  match l with
  | [] => Except.error PyErr.emptyMin
  | x :: rest => Except.ok (rest.foldl max x)

/-- `numpy.diff`: consecutive differences. -/
def npDiff (l : List ℚ) : List ℚ :=
  (l.zip l.tail).map (fun p => p.2 - p.1)

/-- `numpy.arange(a, b, step)` for a positive step: the values `a + k·step`
with `a + k·step < b`. -/
def arangeQ (a b step : ℚ) : List ℚ :=
  let n := if step ≤ 0 then 0 else ((b - a) / step).ceil.toNat
  (List.range n).map (fun k => a + (k : ℚ) * step)

/-- Translation of lcms.py 190-191 for one scan: each observed mass
increments the slot `searchsorted(mz_ref, mass)` of the hit-count array
(whose length is `mz_ref.size + 1`, so the increment is always in
bounds). -/
def markScan (grid : List ℚ) (roi : List ℕ) (masses : List ℚ) : List ℕ :=
  masses.foldl
    (fun r x =>
      let i := searchsorted_left grid x
      r.set i (r.getD i 0 + 1))
    roi

/-- The scan loop of `_get_mz_roi` (lcms.py 188-191) over the scan indices
of the region. -/
def markRange (msexp : MSExperiment) (grid : List ℚ) (roi : List ℕ)
    (scanIdxs : List ℕ) : List ℕ :=
  scanIdxs.foldl (fun r k => markScan grid r (msexp.spectrum k).mzs) roi

/-- Boolean-mask selection `mz_ref[roi[:-1].astype(bool)]` of lcms.py
192-193, with the counts still present: keep a grid point when its
hit count is positive. -/
def selCode : List ℚ → List ℕ → List ℚ
  | [], _ => []
  | _ :: _, [] => []
  | g :: gs, c :: cs => if 0 < c then g :: selCode gs cs else selCode gs cs

/-- Translation of `_get_mz_roi` (lcms.py 168-193): the grid bounds and the
sampling step come from the FIRST scan of the region (its min, max and
minimum spacing); a grid point is kept when some scan of the region has a
mass binning to it. -/
def _get_mz_roi (msexp : MSExperiment) (scans : ℕ × ℕ) :
    Except PyErr (List ℚ) :=
  match npMinE (msexp.spectrum scans.1).mzs with
  | Except.error e => Except.error e
  | Except.ok mzMin =>
      match npMaxE (msexp.spectrum scans.1).mzs with
      | Except.error e => Except.error e
      | Except.ok mzMax =>
          match npMinE (npDiff (msexp.spectrum scans.1).mzs) with
          | Except.error e => Except.error e
          | Except.ok mzRes =>
              Except.ok (selCode (arangeQ mzMin mzMax mzRes)
                (markRange msexp (arangeQ mzMin mzMax mzRes)
                  (List.replicate ((arangeQ mzMin mzMax mzRes).length + 1) 0)
                  (List.range' scans.1 (scans.2 - scans.1))))

/-- Segment walk of linear interpolation: `xl, yl` is the last grid point
at or below the query (the query is known to be ≥ the first grid point);
evaluation past the last point is out of the data domain. -/
def ipGo (x : ℚ) : ℚ → ℚ → List ℚ → List ℚ → Except PyErr ℚ
  | xl, yl, xr :: xs, yr :: ys =>
      if x ≤ xr then Except.ok (yl + (yr - yl) * (x - xl) / (xr - xl))
      else ipGo x xr yr xs ys
  | _, _, _, _ => Except.error PyErr.outOfDomain

/-- `scipy.interpolate.interp1d(xs, ys, kind="linear")` evaluated at one
point, with the scipy default `bounds_error=True`: fewer than two data
points is a construction error, and a query outside `[xs.head, xs.last]`
raises. -/
def interpLinear (xs ys : List ℚ) (x : ℚ) : Except PyErr ℚ :=
  match xs, ys with
  | x0 :: x1 :: xrest, y0 :: y1 :: yrest =>
      if x < x0 then Except.error PyErr.outOfDomain
      else ipGo x x0 y0 (x1 :: xrest) (y1 :: yrest)
  | _, _ => Except.error PyErr.interpShort

/-- One row of the interpolation matrix of `accumulate_spectra`
(lcms.py 150-153): interpolate a scan onto the reference grid.  Only the
`linear` kind of the source's default call is embedded; any other kind
string is treated as a construction error. -/
def interpRow (kind : String) (xs ys : List ℚ) (grid : List ℚ) :
    Except PyErr (List ℚ) :=
  if kind = "linear" then mapME (interpLinear xs ys) grid
  else Except.error PyErr.badKind

/-- The accumulator applied to one grid column restricted to a row range
(`np.sum` / `np.mean` with `axis=0`): the sum of an empty slice is 0, its
mean is `NaN`. -/
def applyAcc (accumulator : String) (col : List ℚ) : QN :=
  if accumulator = "mean" then
    if col.length = 0 then QN.nan else QN.val (col.sum / (col.length : ℚ))
  else QN.val col.sum

/-- The per-grid-point accumulation of lcms.py 160-162: accumulator of the
main row range minus accumulator of each flank row range, column by
column. -/
def accumCols (accumulator : String) (interpInt : List (List ℚ))
    (gridLen start2 fin2 rows : ℕ) : List QN :=
  (List.range gridLen).map
    (fun j =>
      ((applyAcc accumulator
          ((sliceL interpInt start2 fin2).map (fun r => r.getD j 0))).sub
        (applyAcc accumulator
          ((sliceL interpInt 0 start2).map (fun r => r.getD j 0)))).sub
        (applyAcc accumulator
          ((sliceL interpInt fin2 rows).map (fun r => r.getD j 0))))

/-- The pipeline of `accumulate_spectra` after argument validation
(lcms.py 146-165): allocate the `rows × grid` matrix (numpy raises on a
negative row count), build the reference grid, interpolate every scan of
the subtract region onto it, shift the region bounds to row coordinates and
accumulate. -/
def accumulateRest (msexp : MSExperiment) (start fin : ℕ) (sub : ℕ × ℕ)
    (kind : String) (accumulator : String) :
    Except PyErr (List ℚ × List QN) :=
  if sub.2 < sub.1 then Except.error PyErr.dimError
  else
    match _get_mz_roi msexp sub with
    | Except.error e => Except.error e
    | Except.ok mzRef =>
        match mapME
            (fun k => interpRow kind (msexp.spectrum k).mzs
              (msexp.spectrum k).ints mzRef)
            (List.range' sub.1 (sub.2 - sub.1)) with
        | Except.error e => Except.error e
        | Except.ok interpInt =>
            Except.ok (mzRef,
              accumCols accumulator interpInt mzRef.length (start - sub.1)
                (fin - sub.1) (sub.2 - sub.1))

/-- Translation of `accumulate_spectra` (lcms.py 111-165), in source order:
resolve the accumulator through the dict lookup (`KeyError` when
unrecognized), validate the subtract region, default it to the scan region,
allocate the `rows × grid` matrix (numpy raises on a negative row count),
build the reference grid, interpolate every scan of the subtract region
onto it, shift the region bounds to row coordinates and return
`acc(main) - acc(left flank) - acc(right flank)` per grid point. -/
def accumulate_spectra (msexp : MSExperiment) (start fin : ℕ)
    (subtract : Option (ℕ × ℕ)) (kind : String) (accumulator : String) :
    Except PyErr (List ℚ × List QN) :=
  if accumulator ≠ "sum" ∧ accumulator ≠ "mean" then
    Except.error PyErr.keyError
  else
    match subtract with
    | some sub =>
        if sub.1 > start ∨ sub.2 < fin then Except.error PyErr.invalidArgument
        else accumulateRest msexp start fin sub kind accumulator
    | none => accumulateRest msexp start fin (start, fin) kind accumulator

/-- Sorted distinct values of `numpy.unique`. -/
def uniqueSorted (l : List ℕ) : List ℕ :=
  (List.insertionSort (· ≤ ·) l).dedup

/-- Unchecked scatter `l[pos] = vals` used where every embedded run writes
in range (numpy would raise otherwise; `List.set` out of range is a
no-op). -/
def scatterQ (l : List ℚ) (pos : List ℕ) (vals : List ℚ) : List ℚ :=
  (pos.zip vals).foldl (fun acc p => acc.set p.1 p.2) l

/-- Bounds-checked scatter `l[pos] = vals`: numpy fancy assignment raises
`IndexError` on an out-of-range position. -/
def scatterE : List ℚ → List ℕ → List ℚ → Except PyErr (List ℚ)
  | l, [], _ => Except.ok l
  | l, _ :: _, [] => Except.ok l
  | l, i :: ps, v :: vs =>
      if i < l.length then scatterE (l.set i v) ps vs
      else Except.error PyErr.indexError

/-- Mask update `mask[idxs] = True`. -/
def setTrueAt (m : List Bool) (idxs : List ℕ) : List Bool :=
  idxs.foldl (fun acc i => acc.set i true) m

/-- `numpy.mean` as a reduce callable (the `mz_reduce="mean"` default of
`_RoiProcessor`); only ever applied to nonempty duplicate groups, so the
0 returned on empty input is never observed. -/
def npMeanReduce (l : List ℚ) : ℚ :=
  if l.length = 0 then 0 else l.sum / (l.length : ℚ)

/-- `numpy.sum` as a reduce callable (the `sp_reduce="sum"` default). -/
def npSumReduce (l : List ℚ) : ℚ :=
  l.sum

/-- Translation of `_match_mz` (lcms.py 820-901), keeping the source's
index arithmetic exactly.  `closest_index`, `dmz` and the match mask are
per element of `mz2`; `match_index` is then the masked selection.
`np.unique(..., return_index=True, return_counts=True)` yields the sorted
distinct slots, the position of each slot's first occurrence IN THE MASKED
ARRAY, and its count.  The duplicate-resolution loop then slices `dmz` and
`mz2`/`sp2` with those masked positions (`dmz[index:index+count]`,
`mz2[closest]`) and writes `no_match_mask[rm_index]` — all indices into the
FULL arrays, exactly as the source does.  The mode check sits inside the
duplicate branch, so an unrecognized mode only raises when a duplicate
exists. -/
def _match_mz (mz1 mz2 sp2 : List ℚ) (tolerance : ℚ) (mode : String)
    (mz_reduce sp_reduce : List ℚ → ℚ) :
    Except PyErr (List ℕ × List ℚ × List ℚ × List ℚ × List ℚ) := do
  let closest_index := find_closest_vec mz1 mz2
  let dmz := (closest_index.zip mz2).map (fun p => |mz1.getD p.1 0 - p.2|)
  let match_mask := dmz.map (fun d => decide (d ≤ tolerance))
  let no_match_mask := match_mask.map (fun b => !b)
  let match_index0 := maskSelect closest_index match_mask
  let uniq := uniqueSorted match_index0
  let first_index := uniq.map (fun u => match_index0.indexOf u)
  let sp_match := first_index.map (fun i => (maskSelect sp2 match_mask).getD i 0)
  let mz_match := first_index.map (fun i => (maskSelect mz2 match_mask).getD i 0)
  let pairs := (first_index.zip (uniq.map (fun u => match_index0.count u))).filter
    (fun p => decide (1 < p.2))
  if pairs.isEmpty then
    Except.ok (uniq, mz_match, sp_match,
      maskSelect mz2 no_match_mask, maskSelect sp2 no_match_mask)
  else if mode = "closest" then
    let closests := pairs.map
      (fun p => argminIdx (sliceL dmz p.1 (p.1 + p.2)) + p.1)
    let rm_index := (pairs.zip closests).flatMap
      (fun pc => (List.range' pc.1.1 pc.1.2).filter (fun j => decide (j ≠ pc.2)))
    let no_match_mask2 := setTrueAt no_match_mask rm_index
    let mz_match2 ← scatterE mz_match (pairs.map (fun p => p.1))
      (closests.map (fun c => mz2.getD c 0))
    let sp_match2 ← scatterE sp_match (pairs.map (fun p => p.1))
      (closests.map (fun c => sp2.getD c 0))
    Except.ok (uniq, mz_match2, sp_match2,
      maskSelect mz2 no_match_mask2, maskSelect sp2 no_match_mask2)
  else if mode = "reduce" then
    let mz_match2 ← scatterE mz_match (pairs.map (fun p => p.1))
      (pairs.map (fun p => mz_reduce (sliceL mz2 p.1 (p.1 + p.2))))
    let sp_match2 ← scatterE sp_match (pairs.map (fun p => p.1))
      (pairs.map (fun p => sp_reduce (sliceL sp2 p.1 (p.1 + p.2))))
    Except.ok (uniq, mz_match2, sp_match2,
      maskSelect mz2 no_match_mask, maskSelect sp2 no_match_mask)
  else Except.error PyErr.invalidArgument

/-- The `Chromatogram` record as built by `append_to_roi`: intensity,
retention-time and mass series of one completed trace. -/
structure Chrom where
  spint : List ℚ
  rt : List ℚ
  mz : List ℚ
  deriving DecidableEq, Repr

/-- State of `_RoiProcessor` (lcms.py 677-817): parallel per-slot arrays
(running mean mass, pre-allocated mass/intensity row buffers of `size`
columns, match counter, consecutive-miss counter, per-slot start offset),
the current column index, the completed-trace list and the parameters. -/
structure RoiState where
  mz_mean : List ℚ
  mzRows : List (List ℚ)
  spRows : List (List ℚ)
  counter : List ℚ
  missing : List ℕ
  index : ℕ
  start : List ℕ
  roi : List Chrom
  max_missing : ℕ
  min_length : ℕ
  tolerance : ℚ
  multiple_match : String
  first_scan : ℕ
  mz_reduce : List ℚ → ℚ
  sp_reduce : List ℚ → ℚ

/-- The state built by `_RoiProcessor.__init__` (lcms.py 693-765): zeroed
`nslots × size` buffers, match counters starting at ONE (the seed counts as
the first sample of the running mean), zero miss counters and offsets. -/
def roiInit (mz_seed : List ℚ) (size max_missing min_length : ℕ)
    (tolerance : ℚ) (multiple_match : String) (first_scan : ℕ)
    (mz_reduce sp_reduce : List ℚ → ℚ) : RoiState :=
  { mz_mean := mz_seed
    mzRows := List.replicate mz_seed.length (npZeros size)
    spRows := List.replicate mz_seed.length (npZeros size)
    counter := List.replicate mz_seed.length 1
    missing := List.replicate mz_seed.length 0
    index := 0
    start := List.replicate mz_seed.length 0
    roi := []
    max_missing := max_missing
    min_length := min_length
    tolerance := tolerance
    multiple_match := multiple_match
    first_scan := first_scan
    mz_reduce := mz_reduce
    sp_reduce := sp_reduce }

/-- `_RoiProcessor.__init__` argument validation: the multiple-match mode
must be `closest` or `reduce` (a list is always 1-dimensional, so the
vector-shape check always passes in the embedding). -/
def mkRoiProcessor (mz_seed : List ℚ) (size max_missing min_length : ℕ)
    (tolerance : ℚ) (multiple_match : String) (first_scan : ℕ)
    (mz_reduce sp_reduce : List ℚ → ℚ) : Except PyErr RoiState :=
  if multiple_match ≠ "closest" ∧ multiple_match ≠ "reduce" then
    Except.error PyErr.invalidArgument
  else
    Except.ok (roiInit mz_seed size max_missing min_length tolerance
      multiple_match first_scan mz_reduce sp_reduce)

/-- Fancy 2-D store `rows[slots, col] = vals`; every embedded run writes
within the allocated buffers (numpy would raise otherwise). -/
def writeCells (rows : List (List ℚ)) (slots : List ℕ) (col : ℕ)
    (vals : List ℚ) : List (List ℚ) :=
  (slots.zip vals).foldl
    (fun rs p => rs.set p.1 ((rs.getD p.1 []).set col p.2)) rows

/-- Translation of `_RoiProcessor.add` (lcms.py 767-792): run the mass
matcher against the running means, write the matched values into this
scan's column, update each matched slot's running mean with the PRE-update
counter as weight (`(mean·n + x) / (n + 1)`), then increment the counter,
increment every miss counter and reset the matched ones, advance the column
index, and hand back the unmatched values. -/
def RoiState.add (st : RoiState) (mz sp : List ℚ) :
    Except PyErr (RoiState × List ℚ × List ℚ) := do
  let r ← _match_mz st.mz_mean mz sp st.tolerance st.multiple_match
    st.mz_reduce st.sp_reduce
  let match_index := r.1
  let mz_match := r.2.1
  let sp_match := r.2.2.1
  let mzRows2 := writeCells st.mzRows match_index st.index mz_match
  let spRows2 := writeCells st.spRows match_index st.index sp_match
  let updated_mean := (match_index.zip mz_match).map
    (fun p => (st.mz_mean.getD p.1 0 * st.counter.getD p.1 0 + p.2)
      / (st.counter.getD p.1 0 + 1))
  let counter2 := match_index.foldl (fun c i => c.set i (c.getD i 0 + 1)) st.counter
  let mean2 := scatterQ st.mz_mean match_index updated_mean
  let missing2 := match_index.foldl (fun m i => m.set i 0)
    (st.missing.map (fun v => v + 1))
  let st2 : RoiState :=
    { st with
      mz_mean := mean2
      mzRows := mzRows2
      spRows := spRows2
      counter := counter2
      missing := missing2
      index := st.index + 1 }
  Except.ok (st2, r.2.2.2.1, r.2.2.2.2)

/-- Translation of `_RoiProcessor.append_to_roi` (lcms.py 794-814): a slot
is completed when its miss counter strictly exceeds `max_missing`; it is
emitted as a `Chrom` when additionally the elapsed length
`index - start[slot]` reaches `min_length` (completed-but-short slots are
silently dropped); every completed slot then has its miss counter reset and
its start offset moved to the current column. -/
def RoiState.append_to_roi (st : RoiState) (rt : List ℚ) : RoiState :=
  let nslots := st.missing.length
  let completedIndex := (List.range nslots).filter
    (fun i => decide (st.max_missing < st.missing.getD i 0) &&
      decide (st.min_length ≤ st.index - st.start.getD i 0))
  let newRois := completedIndex.map
    (fun row =>
      { spint := sliceL (st.spRows.getD row []) (st.start.getD row 0) st.index
        rt := sliceL rt (st.first_scan + st.start.getD row 0)
          (st.first_scan + st.index)
        mz := sliceL (st.mzRows.getD row []) (st.start.getD row 0) st.index })
  let missing2 := (List.range nslots).map
    (fun i => if st.max_missing < st.missing.getD i 0 then 0
      else st.missing.getD i 0)
  let start2 := (List.range st.start.length).map
    (fun i => if st.max_missing < st.missing.getD i 0 then st.index
      else st.start.getD i 0)
  { st with roi := st.roi ++ newRois, missing := missing2, start := start2 }

/-- Translation of `_RoiProcessor.flag_as_completed` (lcms.py 816-817). -/
def RoiState.flag_as_completed (st : RoiState) : RoiState :=
  { st with missing := List.replicate st.missing.length (st.max_missing + 1) }

/-- Drive the trace tracker one scan at a time, calling `append_to_roi`
after each `add` (the per-scan sequence of `_make_roi`, lcms.py 974-975). -/
def runScans : RoiState → List ℚ → List (List ℚ × List ℚ) →
    Except PyErr RoiState
  | st, _, [] => Except.ok st
  | st, rt, (mzv, spv) :: rest => do
      let r ← st.add mzv spv
      runScans (RoiState.append_to_roi r.1 rt) rt rest

/-- Drive the trace tracker with `add` only (no trace finalization), used
to reason about the running-mean recurrence in isolation. -/
def runAdds : RoiState → List (List ℚ × List ℚ) → Except PyErr RoiState
  | st, [] => Except.ok st
  | st, (mzv, spv) :: rest => do
      let r ← st.add mzv spv
      runAdds r.1 rest

/-- Predicate-driven grid selection: keep the grid point at offset `i` when
`P i` holds (used to state grid-membership characterizations). -/
def selSpec (P : ℕ → Bool) : List ℚ → ℕ → List ℚ
  | [], _ => []
  | g :: gs, i => if P i then g :: selSpec P gs (i + 1) else selSpec P gs (i + 1)

/-- A mass of some scan of the region `[s, e)` bins (by a left sorted
search) to grid slot `i`. -/
def binHit (msexp : MSExperiment) (grid : List ℚ) (s e i : ℕ) : Bool :=
  decide (∃ k ∈ List.range' s (e - s), ∃ x ∈ (msexp.spectrum k).mzs,
    searchsorted_left grid x = i)

/-- The grid builder restated with the bin-membership condition written as
an explicit existential, still deriving bounds and step from the FIRST scan
of the region (what `_get_mz_roi` actually does). -/
def mzRoiFirstScan (msexp : MSExperiment) (scans : ℕ × ℕ) :
    Except PyErr (List ℚ) :=
  match npMinE (msexp.spectrum scans.1).mzs with
  | Except.error e => Except.error e
  | Except.ok mzMin =>
      match npMaxE (msexp.spectrum scans.1).mzs with
      | Except.error e => Except.error e
      | Except.ok mzMax =>
          match npMinE (npDiff (msexp.spectrum scans.1).mzs) with
          | Except.error e => Except.error e
          | Except.ok mzRes =>
              Except.ok (selSpec
                (binHit msexp (arangeQ mzMin mzMax mzRes) scans.1 scans.2)
                (arangeQ mzMin mzMax mzRes) 0)

/-- Modelled from the spec (section 4.2), for comparison with the source's
`_get_mz_roi`: the reference grid whose bounds are the minimum and maximum
mass observed across ALL scans of the region and whose step is the minimum
observed mass spacing over the region, keeping a grid point when some scan
of the region has a mass binning to it. -/
def mzRoiUnionSpec (msexp : MSExperiment) (scans : ℕ × ℕ) :
    Except PyErr (List ℚ) :=
  match npMinE ((List.range' scans.1 (scans.2 - scans.1)).flatMap
      (fun k => (msexp.spectrum k).mzs)) with
  | Except.error e => Except.error e
  | Except.ok mzMin =>
      match npMaxE ((List.range' scans.1 (scans.2 - scans.1)).flatMap
          (fun k => (msexp.spectrum k).mzs)) with
      | Except.error e => Except.error e
      | Except.ok mzMax =>
          match npMinE ((List.range' scans.1 (scans.2 - scans.1)).flatMap
              (fun k => npDiff (msexp.spectrum k).mzs)) with
          | Except.error e => Except.error e
          | Except.ok mzRes =>
              Except.ok (selSpec
                (binHit msexp (arangeQ mzMin mzMax mzRes) scans.1 scans.2)
                (arangeQ mzMin mzMax mzRes) 0)

/-- Two identical scans over masses 100 and 101 (intensities 10, 20 and
30, 40). -/
def msexpTwin : MSExperiment :=
  { nspectra := 2
    spectrum := fun k =>
      if k = 0 then { rt := 0, mzs := [100, 101], ints := [10, 20] }
      else { rt := 1, mzs := [100, 101], ints := [30, 40] } }

/-- Two scans whose mass ranges disagree: the first covers [100, 104] with
spacing 2, the second reaches down to 90 and up to 104. -/
def msexpSkew : MSExperiment :=
  { nspectra := 2
    spectrum := fun k =>
      if k = 0 then { rt := 0, mzs := [100, 102, 104], ints := [1, 1, 1] }
      else { rt := 1, mzs := [90, 104], ints := [1, 1] } }

/-- A scan in which the tracked mass 100 is present. -/
def scanHit : List ℚ × List ℚ := ([100], [10])

/-- A scan in which the tracked mass is absent (only a far-away 200). -/
def scanAway : List ℚ × List ℚ := ([200], [20])

/-- Retention times for the 8-scan tracker scenario. -/
def rtA : List ℚ := [0, 1, 2, 3, 4, 5, 6, 7]

/-- Scans 0-6 of the tracker scenario: seed mass present in scans 0-4,
absent in scans 5-6. -/
def scansA7 : List (List ℚ × List ℚ) :=
  [scanHit, scanHit, scanHit, scanHit, scanHit, scanAway, scanAway]

/-- The full tracker scenario: the seed mass reappears in scan 7. -/
def scansA8 : List (List ℚ × List ℚ) :=
  scansA7 ++ [scanHit]

/-- Tracker seeded at mass 100 with 8 scan columns, `max_missing = 1`,
`min_length = 5`, tolerance 0.005, closest-match mode. -/
def stA : RoiState :=
  roiInit [100] 8 1 5 (1 / 200) "closest" 0 npMeanReduce npSumReduce

/-- Same tracker over only 3 scan columns (short-trace scenario). -/
def stB : RoiState :=
  roiInit [100] 3 1 5 (1 / 200) "closest" 0 npMeanReduce npSumReduce

/-- Short-trace scenario: present in scan 0 only, then absent twice. -/
def scansB : List (List ℚ × List ℚ) :=
  [scanHit, scanAway, scanAway]

/-- Retention times for the short-trace scenario. -/
def rtB : List ℚ := [0, 1, 2]

/-- Projection of a tracker run to the data the trace-lifecycle claims
speak about: completed traces, per-slot start offsets, column index and the
mass buffers. -/
def roiStateView (e : Except PyErr RoiState) :
    Except PyErr (List Chrom × List ℕ × ℕ × List (List ℚ)) :=
  e.map (fun st => (st.roi, st.start, st.index, st.mzRows))

/-- Projection of a tracker run to the running means and match counters. -/
def meanView (e : Except PyErr RoiState) : Except PyErr (List ℚ × List ℚ) :=
  e.map (fun st => (st.mz_mean, st.counter))

/-- Single-slot tracker used for the running-mean recurrence: seed mean
`s`, one row, `size` columns. -/
def singleSlot (s : ℚ) (tol : ℚ) (size : ℕ) : RoiState :=
  roiInit [s] size 1 5 tol "closest" 0 npMeanReduce npSumReduce

/-- C1: the charge-state loop of `find_isotopic_distribution` never updates
`n_peaks`, so a later charge state replaces the best candidate set whenever
it has ANY within-tolerance match, not only on a strictly larger match
count.  On a spectrum whose charge-1 envelope has two matches while charge
2 only recovers the monoisotopic peak, the function returns the charge-2
set `[0]` instead of the larger charge-1 set `[0, 1]` that the claim (and
the function's own docstring) promise. -/
theorem find_isotopic_distribution_last_charge_wins :
    find_isotopic_distribution mzIsoEx 100 2 2 (1 / 100) = [0] ∧
    find_isotopic_distribution_aux mzIsoEx 100 1 2 (1 / 100) = [0, 1] ∧
    find_isotopic_distribution_aux mzIsoEx 100 2 2 (1 / 100) = [0] := by
  refine ⟨?_, ?_, ?_⟩ <;> with_unfolding_all rfl

/-- C2: in `closest` mode `_match_mz` resolves the duplicate slot with
positions taken in the tolerance-masked array but applied to the full
arrays, so when an out-of-tolerance value (90) precedes the duplicates, the
losing candidate 100.002 is neither kept nor returned as unmatched — it is
silently dropped (the unmatched output is only `[90]`), contradicting the
claim that every non-kept candidate for a slot reappears as unmatched. -/
theorem match_mz_closest_drops_shifted_candidate :
    _match_mz [100] [90, 100001 / 1000, 100002 / 1000] [5, 1, 2] (1 / 200)
      "closest" npMeanReduce npSumReduce =
      Except.ok ([0], [100001 / 1000], [1], [90], [5]) ∧
    ((100002 / 1000 : ℚ) ∉ ([90] : List ℚ)) ∧
    ((100002 / 1000 : ℚ) ∉ ([100001 / 1000] : List ℚ)) :=
  ⟨by with_unfolding_all rfl, by with_unfolding_all decide,
    by with_unfolding_all decide⟩

/-- C3 counterexample: in the claimed scenario (seed present in scans 0-4,
absent in 5-6, `max_missing = 1`, `append_to_roi` after each `add`) the
trace finalized after scan 6 spans the whole slice `start..index`, i.e. 7
scans with zeros at the two missed columns — its length is 7, not the 5
the claim states. -/
theorem roi_scenario_trace_length_seven :
    roiStateView (runScans stA rtA scansA7) =
      Except.ok
        ([{ spint := [10, 10, 10, 10, 10, 0, 0]
            rt := [0, 1, 2, 3, 4, 5, 6]
            mz := [100, 100, 100, 100, 100, 0, 0] }],
          [7], 7, [[100, 100, 100, 100, 100, 0, 0, 0]]) ∧
    (7 : ℕ) ≠ 5 :=
  ⟨by with_unfolding_all rfl, by decide⟩

/-- C3 amended: the scenario's trace is emitted after scan 6 with length
`index - start = 7` (scans 0-6, zeros at the missed scans 5-6), the slot's
start offset is reset to 7 so a fresh trace begins at scan 7 (its mass is
written into column 7 when scan 7 is processed); and a
completed-but-short slot (present only in scan 0, two misses, elapsed
length 3 < min_length 5) is silently discarded: no trace is emitted and the
slot is reset. -/
theorem roi_scenario_amended :
    roiStateView (runScans stA rtA scansA8) =
      Except.ok
        ([{ spint := [10, 10, 10, 10, 10, 0, 0]
            rt := [0, 1, 2, 3, 4, 5, 6]
            mz := [100, 100, 100, 100, 100, 0, 0] }],
          [7], 8, [[100, 100, 100, 100, 100, 0, 0, 100]]) ∧
    roiStateView (runScans stB rtB scansB) =
      Except.ok ([], [3], 3, [[100, 0, 0]]) := by
  refine ⟨?_, ?_⟩ <;> with_unfolding_all rfl

/-- C4: with accumulator `mean` and a window containing no mass points
(target 150, window 1, scan masses 100 and 200), `np.add.reduceat` on the
equal clamped bounds yields the single element at the lower bound — the
neighboring intensity 20 — and the zero count is replaced by divisor 1, so
the reported value is 20, not the 0 the claim states. -/
theorem chromatogram_mean_empty_window_nonzero :
    chromatogram msexpGap [150] 1 none none "mean" =
      Except.ok ([0], [[20]]) ∧ (20 : ℚ) ≠ 0 :=
  ⟨by with_unfolding_all rfl, by norm_num⟩

/-- C5: with `subtract` omitted the flank slices are empty, and while
`np.sum` of an empty slice is 0 (so `sum` mode indeed equals the main-region
accumulation, 40 here), `np.mean` of an empty slice is `NaN`, which
propagates through the two subtractions: `mean` mode returns `NaN` at every
grid point instead of the main-region mean 20. -/
theorem accumulate_mean_no_subtract_nan :
    accumulate_spectra msexpTwin 0 2 none "linear" "mean" =
      Except.ok ([100], [QN.nan]) ∧
    accumulate_spectra msexpTwin 0 2 none "linear" "sum" =
      Except.ok ([100], [QN.val 40]) ∧
    QN.nan ≠ QN.val 20 :=
  ⟨by with_unfolding_all rfl, by with_unfolding_all rfl, by decide⟩

/-- C7 counterexample: on a region whose second scan reaches down to mass
90, `_get_mz_roi` still clips the grid to the FIRST scan's range [100, 104)
and step 2, returning `[100, 102]`; the spec's union-derived grid is
`[90, 100, 102]`.  The observed union minimum 90 is absent from the code's
grid, so the grid is not clipped to the union bounds. -/
theorem get_mz_roi_ignores_union_bounds :
    _get_mz_roi msexpSkew (0, 2) = Except.ok [100, 102] ∧
    mzRoiUnionSpec msexpSkew (0, 2) = Except.ok [90, 100, 102] ∧
    ((90 : ℚ) ∉ ([100, 102] : List ℚ)) :=
  ⟨by with_unfolding_all rfl, by with_unfolding_all rfl,
    by with_unfolding_all decide⟩

/-- C8 counterexample: with an unrecognized accumulator but an empty scan
range (`start = end = 0`), `chromatogram` returns empty results normally —
the mode check sits inside the scan loop, so no `InvalidArgument` is raised
when zero scans lie in `[start, end)`, contradicting the claim that the
error is raised regardless of the number of scans and before any partial
computation. -/
theorem chromatogram_bad_accumulator_empty_range_ok :
    chromatogram msexpGap [150] 1 (some 0) (some 0) "foo" =
      Except.ok ([], [[]]) := by
  with_unfolding_all rfl

theorem setChecked_ok_of_lt {l : List ℚ} {i : ℕ} (v : ℚ) (h : i < l.length) :
    setChecked l i v = Except.ok (l.set i v) := by
  simp [setChecked, h]

theorem setChecked_err_of_ge {l : List ℚ} {i : ℕ} (v : ℚ) (h : l.length ≤ i) :
    setChecked l i v = Except.error PyErr.indexError := by
  simp [setChecked]
  omega

theorem eicCol_error_eq {a : List ℚ} {ind : List (ℕ × ℕ)} {e : PyErr}
    (h : eicCol a ind = Except.error e) : e = PyErr.indexError := by
  unfold eicCol at h
  split at h
  · exact absurd h (by simp)
  · split at h
    · exact (Except.error.inj h).symm
    · exact absurd h (by simp)

theorem eicLoop_oob (msexp : MSExperiment) (intervals : List (ℚ × ℚ))
    (acc : String) (size : ℕ) (hacc : acc = "sum" ∨ acc = "mean") :
    ∀ fuel ksp (rtl : List ℚ) (chrom : List (List ℚ)),
      rtl.length = size → size < ksp + fuel → 0 < fuel →
      eicLoop msexp intervals acc size fuel ksp (rtl, chrom) =
        Except.error PyErr.indexError := by
  intro fuel
  induction fuel with
  | zero => intro ksp rtl chrom _ _ h0; exact absurd h0 (by omega)
  | succ n ih =>
      intro ksp rtl chrom hlen hbound _
      by_cases hk : ksp < size
      · have hk2 : ksp < rtl.length := by omega
        have hbody : eicBody msexp intervals acc size ksp (rtl, chrom) =
              Except.error PyErr.indexError ∨
            ∃ rtl2 chrom2,
              eicBody msexp intervals acc size ksp (rtl, chrom) =
                Except.ok (rtl2, chrom2) ∧ rtl2.length = size := by
          cases hcol : eicCol (msexp.spectrum ksp).ints
              (intervals.map (fun p =>
                (searchsorted_left (msexp.spectrum ksp).mzs p.1,
                  searchsorted_left (msexp.spectrum ksp).mzs p.2))) with
          | error e =>
              left
              simp only [eicBody, setChecked_ok_of_lt _ hk2, hcol,
                eicCol_error_eq hcol]
          | ok cn =>
              right
              have hsc : ∀ rows col, setColumn size rows ksp col =
                  Except.ok ((rows.zip col).map (fun p => p.1.set ksp p.2)) := by
                intro rows col
                simp [setColumn, hk]
              rcases hacc with h | h
              · have heq : eicBody msexp intervals acc size ksp (rtl, chrom) =
                    Except.ok (rtl.set ksp (msexp.spectrum ksp).rt,
                      (chrom.zip cn.1).map (fun p => p.1.set ksp p.2)) := by
                  rw [h]
                  simp [eicBody, setChecked_ok_of_lt _ hk2, hcol, hsc]
                exact ⟨_, _, heq, by simp [hlen]⟩
              · have heq : eicBody msexp intervals acc size ksp (rtl, chrom) =
                    Except.ok (rtl.set ksp (msexp.spectrum ksp).rt,
                      ((((chrom.zip cn.1).map (fun p => p.1.set ksp p.2)).zip
                        ((cn.1.zip (cn.2.map (fun z => if z = 0 then 1 else z))).map
                          (fun p => p.1 / (p.2 : ℚ)))).map
                        (fun p => p.1.set ksp p.2))) := by
                  rw [h]
                  simp [eicBody, setChecked_ok_of_lt _ hk2, hcol, hsc]
                exact ⟨_, _, heq, by simp [hlen]⟩
        rcases hbody with herr | ⟨rtl2, chrom2, hok, hlen2⟩
        · simp only [eicLoop, herr]
        · simp only [eicLoop, hok]
          exact ih (ksp + 1) rtl2 chrom2 hlen2 (by omega) (by omega)
      · have hbody : eicBody msexp intervals acc size ksp (rtl, chrom) =
            Except.error PyErr.indexError := by
          simp only [eicBody, setChecked_err_of_ge _ (show rtl.length ≤ ksp by omega)]
        simp only [eicLoop, hbody]

/-- C10: `chromatogram` allocates its retention-time and intensity outputs
with `end - start` entries but writes them at the absolute scan index, so
every call with `start ≥ 1` and `end > start` (and a recognized
accumulator, which rules out the unrelated mode error) reaches the absolute
index `end - 1 ≥ end - start` and fails with an out-of-bounds indexing
error instead of returning a result. -/
theorem chromatogram_positive_start_index_error (msexp : MSExperiment)
    (mzl : List ℚ) (w : ℚ) (s e : ℕ) (acc : String) (hs : 1 ≤ s)
    (hse : s < e) (hacc : acc = "sum" ∨ acc = "mean") :
    chromatogram msexp mzl w (some s) (some e) acc =
      Except.error PyErr.indexError := by
  simp only [chromatogram, Option.getD]
  rw [if_neg (by omega)]
  exact eicLoop_oob msexp _ acc (e - s) hacc (e - s) s _ _
    (by simp [npZeros]) (by omega) (by omega)

/-- C10 witness: a concrete two-scan call with `start = 1`, `end = 2`
raises the out-of-bounds error. -/
theorem chromatogram_positive_start_index_error_witness :
    chromatogram msexpGap [100] 1 (some 1) (some 2) "sum" =
      Except.error PyErr.indexError :=
  chromatogram_positive_start_index_error msexpGap [100] 1 1 2 "sum"
    (by decide) (by decide) (Or.inl rfl)

/-- C8 amended: with an unrecognized accumulator the `InvalidArgument`
error is raised on the FIRST processed scan, after that scan's column has
already been computed and stored (validation happens inside the loop, not
up front); it therefore requires at least one scan in `[start, end)` —
stated here for `start = 0`, where the first iteration's stores are in
bounds, with the first scan nonempty (or no targets) so that the window
accumulation itself succeeds.  With zero scans in the range the call
instead returns empty results without any error. -/
theorem chromatogram_bad_accumulator_amended (msexp : MSExperiment)
    (mzl : List ℚ) (w : ℚ) (e : ℕ) (acc : String) (h1 : acc ≠ "sum")
    (h2 : acc ≠ "mean") (he : 0 < e)
    (hsc : mzl = [] ∨ (msexp.spectrum 0).ints ≠ []) :
    chromatogram msexp mzl w (some 0) (some e) acc =
      Except.error PyErr.invalidArgument ∧
    ∀ s, chromatogram msexp mzl w (some s) (some s) acc =
      Except.ok ([], List.replicate mzl.length []) := by
  constructor
  · simp only [chromatogram, Option.getD]
    rw [if_neg (by omega)]
    obtain ⟨n, rfl⟩ : ∃ n, e = n + 1 := ⟨e - 1, by omega⟩
    have hcol : ∃ cn,
        eicCol (msexp.spectrum 0).ints
          ((mzl.map (fun m => (m - w, m + w))).map (fun p =>
            (searchsorted_left (msexp.spectrum 0).mzs p.1,
              searchsorted_left (msexp.spectrum 0).mzs p.2))) =
        Except.ok cn := by
      unfold eicCol
      split
      · exact ⟨_, rfl⟩
      · split
        · rename_i hne hempty
          rcases hsc with hm | hi
          · subst hm
            simp at hne
          · rw [List.isEmpty_iff] at hempty
            exact absurd hempty hi
        · exact ⟨_, rfl⟩
    obtain ⟨cn, hcn⟩ := hcol
    have hbody : eicBody msexp (mzl.map (fun m => (m - w, m + w))) acc
        (n + 1 - 0) 0 (npZeros (n + 1 - 0),
          List.replicate mzl.length (npZeros (n + 1 - 0))) =
        Except.error PyErr.invalidArgument := by
      simp only [eicBody]
      rw [setChecked_ok_of_lt _ (by simp [npZeros])]
      rw [hcn]
      have hsc2 : setColumn (n + 1 - 0)
          (List.replicate mzl.length (npZeros (n + 1 - 0))) 0 cn.1 =
          Except.ok (((List.replicate mzl.length (npZeros (n + 1 - 0))).zip
            cn.1).map (fun p => p.1.set 0 p.2)) := by
        simp [setColumn]
      simp only [hsc2]
      rw [if_neg h2, if_neg h1]
    show eicLoop msexp (mzl.map (fun m => (m - w, m + w))) acc (n + 1 - 0)
      (n + 1 - 0) 0 (npZeros (n + 1 - 0),
        List.replicate mzl.length (npZeros (n + 1 - 0))) =
      Except.error PyErr.invalidArgument
    have hn : n + 1 - 0 = n + 1 := rfl
    rw [hn] at hbody ⊢
    simp only [eicLoop, hbody]
  · intro s
    simp only [chromatogram, Option.getD]
    rw [if_neg (by omega)]
    have hz : s - s = 0 := by omega
    rw [hz]
    simp [eicLoop, npZeros]

/-- C8 amended witness: a concrete unrecognized-accumulator call with one
scan in range raises `InvalidArgument`. -/
theorem chromatogram_bad_accumulator_amended_witness :
    chromatogram msexpGap [150] 1 (some 0) (some 1) "foo" =
      Except.error PyErr.invalidArgument :=
  (chromatogram_bad_accumulator_amended msexpGap [150] 1 1 "foo"
    (by decide) (by decide) (by decide) (Or.inr (by decide))).1

theorem npMinE_ne_invalid (l : List ℚ) :
    npMinE l ≠ Except.error PyErr.invalidArgument := by
  cases l <;> simp [npMinE]

theorem npMaxE_ne_invalid (l : List ℚ) :
    npMaxE l ≠ Except.error PyErr.invalidArgument := by
  cases l <;> simp [npMaxE]

theorem get_mz_roi_ne_invalid (msexp : MSExperiment) (sc : ℕ × ℕ) :
    _get_mz_roi msexp sc ≠ Except.error PyErr.invalidArgument := by
  unfold _get_mz_roi
  cases h1 : npMinE (msexp.spectrum sc.1).mzs with
  | error e =>
      simp only [h1]
      intro hc
      exact npMinE_ne_invalid _ (h1.trans (congrArg Except.error
        (Except.error.inj hc)))
  | ok mzMin =>
      cases h2 : npMaxE (msexp.spectrum sc.1).mzs with
      | error e =>
          simp only [h2]
          intro hc
          exact npMaxE_ne_invalid _ (h2.trans (congrArg Except.error
            (Except.error.inj hc)))
      | ok mzMax =>
          cases h3 : npMinE (npDiff (msexp.spectrum sc.1).mzs) with
          | error e =>
              simp only [h3]
              intro hc
              exact npMinE_ne_invalid _ (h3.trans (congrArg Except.error
                (Except.error.inj hc)))
          | ok mzRes => simp only [h3]; simp

theorem ipGo_ne_invalid (x : ℚ) : ∀ (xl yl : ℚ) (xs ys : List ℚ),
    ipGo x xl yl xs ys ≠ Except.error PyErr.invalidArgument := by
  intro xl yl xs
  induction xs generalizing xl yl with
  | nil => intro ys; cases ys <;> simp [ipGo]
  | cons xr xrest ih =>
      intro ys
      cases ys with
      | nil => simp [ipGo]
      | cons yr yrest =>
          simp only [ipGo]
          split
          · simp
          · exact ih xr yr yrest

theorem interpLinear_ne_invalid (xs ys : List ℚ) (x : ℚ) :
    interpLinear xs ys x ≠ Except.error PyErr.invalidArgument := by
  unfold interpLinear
  split
  · split
    · simp
    · exact ipGo_ne_invalid _ _ _ _ _
  · simp

theorem mapME_ne_invalid {α β : Type} (f : α → Except PyErr β)
    (hf : ∀ a, f a ≠ Except.error PyErr.invalidArgument) :
    ∀ l, mapME f l ≠ Except.error PyErr.invalidArgument := by
  intro l
  induction l with
  | nil => simp [mapME]
  | cons a l ih =>
      simp only [mapME]
      cases h : f a with
      | error e =>
          intro hc
          exact hf a (h.trans (congrArg Except.error (Except.error.inj hc)))
      | ok b =>
          cases h2 : mapME f l with
          | error e =>
              intro hc
              exact ih (h2.trans (congrArg Except.error (Except.error.inj hc)))
          | ok bs => simp

theorem interpRow_ne_invalid (kind : String) (xs ys grid : List ℚ) :
    interpRow kind xs ys grid ≠ Except.error PyErr.invalidArgument := by
  unfold interpRow
  split
  · exact mapME_ne_invalid _ (fun a => interpLinear_ne_invalid xs ys a) grid
  · simp

theorem accumulateRest_ne_invalid (msexp : MSExperiment) (start fin : ℕ)
    (sub : ℕ × ℕ) (kind accumulator : String) :
    accumulateRest msexp start fin sub kind accumulator ≠
      Except.error PyErr.invalidArgument := by
  unfold accumulateRest
  split
  · simp
  · split
    · rename_i e heq
      intro hc
      exact get_mz_roi_ne_invalid msexp sub
        (heq.trans (congrArg Except.error (Except.error.inj hc)))
    · rename_i mzRef heq
      split
      · rename_i e heq2
        intro hc
        exact mapME_ne_invalid _ (fun k => interpRow_ne_invalid kind _ _ _) _
          (heq2.trans (congrArg Except.error (Except.error.inj hc)))
      · simp

/-- C6: with a recognized accumulator (so that the earlier dict lookup of
the accumulator function succeeds), `accumulate_spectra` with a provided
subtract pair fails with `InvalidArgument` exactly when the subtract region
does not contain the accumulation region, i.e. when `subtract[0] > start`
or `subtract[1] < end`; no later stage of the pipeline raises that
error. -/
theorem accumulate_subtract_invalid_iff (msexp : MSExperiment)
    (start fin a b : ℕ) (kind acc : String)
    (hacc : acc = "sum" ∨ acc = "mean") :
    accumulate_spectra msexp start fin (some (a, b)) kind acc =
        Except.error PyErr.invalidArgument ↔
      (a > start ∨ b < fin) := by
  have hne : ¬(acc ≠ "sum" ∧ acc ≠ "mean") := by
    rcases hacc with h | h <;> simp [h]
  unfold accumulate_spectra
  rw [if_neg hne]
  by_cases hcond : a > start ∨ b < fin
  · simp only [if_pos hcond]
    simp [hcond]
  · simp only [if_neg hcond]
    constructor
    · intro hc
      exact absurd hc (accumulateRest_ne_invalid msexp start fin (a, b) kind acc)
    · intro hc
      exact absurd hc hcond

/-- C6 witness: the claim's concrete instances — `subtract = (10, 30)` with
`start = 15`, `end = 25` passes validation (the call does not raise
`InvalidArgument`), while `subtract = (16, 30)` with the same region is
rejected with `InvalidArgument` because `16 > 15`. -/
theorem accumulate_subtract_invalid_iff_witness :
    accumulate_spectra msexpTwin 15 25 (some (16, 30)) "linear" "sum" =
        Except.error PyErr.invalidArgument ∧
      accumulate_spectra msexpTwin 15 25 (some (10, 30)) "linear" "sum" ≠
        Except.error PyErr.invalidArgument :=
  ⟨(accumulate_subtract_invalid_iff msexpTwin 15 25 16 30 "linear" "sum"
      (Or.inl rfl)).mpr (by omega),
    fun hc => absurd ((accumulate_subtract_invalid_iff msexpTwin 15 25 10 30
      "linear" "sum" (Or.inl rfl)).mp hc) (by omega)⟩

theorem getD_replicate_zero (r n : ℕ) :
    (List.replicate r (0 : ℕ)).getD n 0 = 0 := by
  induction r generalizing n with
  | zero => simp [List.getD]
  | succ r ih =>
      cases n with
      | zero => simp [List.replicate_succ]
      | succ n2 => simp [List.replicate_succ, List.getD_cons_succ, ih]

theorem getD_set_nat (l : List ℕ) (i j v : ℕ) (hi : i < l.length) :
    (l.set i v).getD j 0 = if i = j then v else l.getD j 0 := by
  induction l generalizing i j with
  | nil => simp at hi
  | cons a l ih =>
      cases i with
      | zero =>
          cases j with
          | zero => simp
          | succ j2 => simp
      | succ i2 =>
          cases j with
          | zero => simp
          | succ j2 =>
              simp only [List.set_cons_succ, List.getD_cons_succ]
              rw [ih i2 j2 (by simpa using hi)]
              by_cases h : i2 = j2
              · simp [h]
              · simp [h, show ¬(i2 + 1 = j2 + 1) from by omega]

theorem markScan_length (grid : List ℚ) (masses : List ℚ) :
    ∀ roi : List ℕ, (markScan grid roi masses).length = roi.length := by
  induction masses with
  | nil => intro roi; rfl
  | cons x xs ih =>
      intro roi
      show (markScan grid _ xs).length = _
      rw [ih]
      simp

theorem searchsorted_le_length (xs : List ℚ) (v : ℚ) :
    searchsorted_left xs v ≤ xs.length := by
  unfold searchsorted_left
  exact (List.takeWhile_sublist _).length_le

theorem markScan_pos_iff (grid : List ℚ) (masses : List ℚ) :
    ∀ (roi : List ℕ) (i : ℕ), roi.length = grid.length + 1 →
      (0 < (markScan grid roi masses).getD i 0 ↔
        0 < roi.getD i 0 ∨ ∃ x ∈ masses, searchsorted_left grid x = i) := by
  induction masses with
  | nil => intro roi i _; simp [markScan]
  | cons x xs ih =>
      intro roi i hlen
      have hstep : markScan grid roi (x :: xs) =
          markScan grid (roi.set (searchsorted_left grid x)
            (roi.getD (searchsorted_left grid x) 0 + 1)) xs := rfl
      rw [hstep]
      have hin : searchsorted_left grid x < roi.length := by
        have := searchsorted_le_length grid x
        omega
      rw [ih _ i (by simp [hlen])]
      rw [getD_set_nat _ _ _ _ hin]
      by_cases hji : searchsorted_left grid x = i
      · simp only [if_pos hji]
        constructor
        · intro _
          exact Or.inr ⟨x, List.mem_cons_self x xs, hji⟩
        · intro _
          left
          omega
      · simp only [if_neg hji]
        constructor
        · rintro (h | ⟨y, hy, hss⟩)
          · exact Or.inl h
          · exact Or.inr ⟨y, List.mem_cons_of_mem x hy, hss⟩
        · rintro (h | ⟨y, hy, hss⟩)
          · exact Or.inl h
          · rcases List.mem_cons.mp hy with rfl | hy2
            · exact absurd hss hji
            · exact Or.inr ⟨y, hy2, hss⟩

theorem markRange_length (msexp : MSExperiment) (grid : List ℚ)
    (idxs : List ℕ) : ∀ roi : List ℕ,
    (markRange msexp grid roi idxs).length = roi.length := by
  induction idxs with
  | nil => intro roi; rfl
  | cons k ks ih =>
      intro roi
      show (markRange msexp grid _ ks).length = _
      rw [ih, markScan_length]

theorem markRange_pos_iff (msexp : MSExperiment) (grid : List ℚ)
    (idxs : List ℕ) : ∀ (roi : List ℕ) (i : ℕ),
    roi.length = grid.length + 1 →
      (0 < (markRange msexp grid roi idxs).getD i 0 ↔
        0 < roi.getD i 0 ∨
          ∃ k ∈ idxs, ∃ x ∈ (msexp.spectrum k).mzs,
            searchsorted_left grid x = i) := by
  induction idxs with
  | nil => intro roi i _; simp [markRange]
  | cons k ks ih =>
      intro roi i hlen
      have hstep : markRange msexp grid roi (k :: ks) =
          markRange msexp grid (markScan grid roi (msexp.spectrum k).mzs) ks :=
        rfl
      rw [hstep]
      rw [ih _ i (by rw [markScan_length]; exact hlen)]
      rw [markScan_pos_iff _ _ _ _ hlen]
      constructor
      · rintro ((h | ⟨x, hx, hss⟩) | ⟨k2, hk2, x, hx, hss⟩)
        · exact Or.inl h
        · exact Or.inr ⟨k, List.mem_cons_self k ks, x, hx, hss⟩
        · exact Or.inr ⟨k2, List.mem_cons_of_mem k hk2, x, hx, hss⟩
      · rintro (h | ⟨k2, hk2, x, hx, hss⟩)
        · exact Or.inl (Or.inl h)
        · rcases List.mem_cons.mp hk2 with rfl | hk3
          · exact Or.inl (Or.inr ⟨x, hx, hss⟩)
          · exact Or.inr ⟨k2, hk3, x, hx, hss⟩

theorem selCode_eq_selSpec (P : ℕ → Bool) :
    ∀ (gs : List ℚ) (cs : List ℕ) (off : ℕ), gs.length ≤ cs.length →
      (∀ j, j < gs.length → (0 < cs.getD j 0 ↔ P (off + j) = true)) →
      selCode gs cs = selSpec P gs off := by
  intro gs
  induction gs with
  | nil => intro cs off _ _; cases cs <;> rfl
  | cons g gs ih =>
      intro cs off hlen hpt
      cases cs with
      | nil => simp at hlen
      | cons c cs2 =>
          have h0 := hpt 0 (by simp)
          simp only [List.getD_cons_zero, Nat.add_zero] at h0
          show (if 0 < c then g :: selCode gs cs2 else selCode gs cs2) =
            (if P off then g :: selSpec P gs (off + 1) else selSpec P gs (off + 1))
          have hrec : selCode gs cs2 = selSpec P gs (off + 1) := by
            refine ih cs2 (off + 1) (by simpa using hlen) ?_
            intro j hj
            have := hpt (j + 1) (by simpa using hj)
            simpa [Nat.add_comm, Nat.add_assoc, Nat.add_left_comm] using this
          by_cases hc : 0 < c
          · rw [if_pos hc, if_pos (h0.mp hc), hrec]
          · rw [if_neg hc, if_neg (fun hp => hc (h0.mpr hp)), hrec]

/-- C7 amended: `_get_mz_roi` equals, on every input, the grid whose lower
bound, upper bound and sampling step come from the FIRST scan of the region
(its minimum, maximum and minimum spacing) filtered by the union bin-hit
condition: a grid point is kept exactly when some scan of the region has a
mass binning to it.  Only the retention test uses the union of scans; the
bounds and the step do not. -/
theorem get_mz_roi_first_scan_grid (msexp : MSExperiment) (sc : ℕ × ℕ) :
    _get_mz_roi msexp sc = mzRoiFirstScan msexp sc := by
  unfold _get_mz_roi mzRoiFirstScan
  cases h1 : npMinE (msexp.spectrum sc.1).mzs with
  | error e => rfl
  | ok mzMin =>
      cases h2 : npMaxE (msexp.spectrum sc.1).mzs with
      | error e => rfl
      | ok mzMax =>
          cases h3 : npMinE (npDiff (msexp.spectrum sc.1).mzs) with
          | error e => rfl
          | ok mzRes =>
              refine congrArg Except.ok ?_
              refine selCode_eq_selSpec _ _ _ 0 ?_ ?_
              · rw [markRange_length]
                simp
              · intro j hj
                rw [markRange_pos_iff _ _ _ _ _ (by simp)]
                rw [getD_replicate_zero]
                unfold binHit
                rw [decide_eq_true_eq]
                simp only [Nat.zero_add]
                constructor
                · rintro (h | h)
                  · omega
                  · exact h
                · intro h
                  exact Or.inr h

theorem exceptOkBind {α β : Type} (a : α) (f : α → Except PyErr β) :
    (Except.ok a >>= f) = f a := rfl

theorem match_mz_singleton (m x i tol : ℚ) (f g : List ℚ → ℚ)
    (h : |m - x| ≤ tol) :
    _match_mz [m] [x] [i] tol "closest" f g =
      Except.ok ([0], [x], [i], [], []) := by
  have hd : decide (|m - x| ≤ tol) = true := decide_eq_true h
  simp [_match_mz, find_closest_vec, find_closest, fcAux, maskSelect,
    uniqueSorted, List.insertionSort, List.orderedInsert, List.dedup, hd]

theorem add_singleton (m c x i tol : ℚ) (rowsM rowsS : List (List ℚ))
    (miss : List ℕ) (idx : ℕ) (stt : List ℕ) (roi : List Chrom)
    (mm ml : ℕ) (fs : ℕ) (h : |m - x| ≤ tol) :
    RoiState.add
      ⟨[m], rowsM, rowsS, [c], miss, idx, stt, roi, mm, ml, tol, "closest",
        fs, npMeanReduce, npSumReduce⟩ [x] [i] =
      Except.ok
        (⟨[(m * c + x) / (c + 1)], writeCells rowsM [0] idx [x],
          writeCells rowsS [0] idx [i], [c + 1],
          (miss.map (fun v => v + 1)).set 0 0, idx + 1, stt, roi, mm, ml,
          tol, "closest", fs, npMeanReduce, npSumReduce⟩, [], []) := by
  simp only [RoiState.add, match_mz_singleton m x i tol _ _ h, exceptOkBind]
  simp [scatterQ]

theorem runAdds_single_aux (s tol : ℚ) :
    ∀ (xs : List ℚ) (m c : ℚ) (rowsM rowsS : List (List ℚ)) (miss : List ℕ)
      (idx : ℕ) (stt : List ℕ) (roi : List Chrom) (mm ml fs : ℕ),
      1 ≤ c → |m - s| ≤ tol / 2 → (∀ x ∈ xs, |x - s| ≤ tol / 2) →
      meanView (runAdds
        ⟨[m], rowsM, rowsS, [c], miss, idx, stt, roi, mm, ml, tol, "closest",
          fs, npMeanReduce, npSumReduce⟩
        (xs.map (fun x => ([x], [1])))) =
        Except.ok ([(m * c + xs.sum) / (c + xs.length)],
          [c + (xs.length : ℚ)]) := by
  intro xs
  induction xs with
  | nil =>
      intro m c rowsM rowsS miss idx stt roi mm ml fs hc hm hxs
      have hne : c ≠ 0 := by intro h; rw [h] at hc; norm_num at hc
      simp [meanView, runAdds, Except.map, mul_comm m c, mul_div_assoc,
        mul_div_cancel_left₀ m hne]
  | cons x rest ih =>
      intro m c rowsM rowsS miss idx stt roi mm ml fs hc hm hxs
      have hc0 : (0 : ℚ) ≤ c := by linarith
      have hc1 : (0 : ℚ) < c + 1 := by linarith
      have hne : c + 1 ≠ 0 := by linarith
      have hx : |x - s| ≤ tol / 2 := hxs x (List.mem_cons_self x rest)
      have hmx : |m - x| ≤ tol := by
        have h1 : |m - x| ≤ |m - s| + |x - s| := by
          have h2 := abs_add (m - s) (s - x)
          rw [show m - s + (s - x) = m - x by ring] at h2
          rw [abs_sub_comm s x] at h2
          exact h2
        linarith
      have hm2 : |(m * c + x) / (c + 1) - s| ≤ tol / 2 := by
        have heq : (m * c + x) / (c + 1) - s =
            ((m - s) * c + (x - s)) / (c + 1) := by
          field_simp
          ring
        rw [heq, abs_div, abs_of_pos hc1, div_le_iff₀ hc1]
        calc |(m - s) * c + (x - s)| ≤ |(m - s) * c| + |x - s| := abs_add _ _
          _ = |m - s| * c + |x - s| := by rw [abs_mul, abs_of_nonneg hc0]
          _ ≤ tol / 2 * c + tol / 2 := by
              have h3 := mul_le_mul_of_nonneg_right hm hc0
              linarith
          _ = tol / 2 * (c + 1) := by ring
      have hstep : runAdds
          ⟨[m], rowsM, rowsS, [c], miss, idx, stt, roi, mm, ml, tol,
            "closest", fs, npMeanReduce, npSumReduce⟩
          ((x :: rest).map (fun y => ([y], [1]))) =
          runAdds
            ⟨[(m * c + x) / (c + 1)], writeCells rowsM [0] idx [x],
              writeCells rowsS [0] idx [1], [c + 1],
              (miss.map (fun v => v + 1)).set 0 0, idx + 1, stt, roi, mm,
              ml, tol, "closest", fs, npMeanReduce, npSumReduce⟩
            (rest.map (fun y => ([y], [1]))) := by
        simp only [List.map_cons]
        show (RoiState.add _ [x] [1] >>= _) = _
        rw [add_singleton m c x 1 tol rowsM rowsS miss idx stt roi mm ml fs hmx]
        rfl
      rw [hstep]
      rw [ih ((m * c + x) / (c + 1)) (c + 1) _ _ _ _ _ _ _ _ _ (by linarith)
        hm2 (fun y hy => hxs y (List.mem_cons_of_mem x hy))]
      rw [div_mul_cancel₀ _ hne]
      simp only [List.sum_cons, List.length_cons]
      push_cast
      ring_nf

/-- C9: on a slot seeded with value `s` (match counter starting at 1, the
seed counting as the first sample), every match updates the running mean by
the incremental average with the PRE-update counter as weight,
`(mean · n + x) / (n + 1)`, so after `k` matched values `x1 .. xk` the
running mean is `(s + x1 + ... + xk) / (k + 1)` and the counter is
`k + 1`.  The hypothesis keeps every value within half the tolerance of the
seed, which guarantees each scan actually matches the slot. -/
theorem roi_running_mean_incremental (s tol : ℚ) (xs : List ℚ) (size : ℕ)
    (htol : 0 ≤ tol) (hxs : ∀ x ∈ xs, |x - s| ≤ tol / 2) :
    meanView (runAdds (singleSlot s tol size)
      (xs.map (fun x => ([x], [1])))) =
      Except.ok ([(s + xs.sum) / (1 + xs.length)], [1 + (xs.length : ℚ)]) := by
  have hinit : singleSlot s tol size =
      ⟨[s], List.replicate 1 (npZeros size), List.replicate 1 (npZeros size),
        [1], [0], 0, [0], [], 1, 5, tol, "closest", 0, npMeanReduce,
        npSumReduce⟩ := rfl
  rw [hinit]
  rw [runAdds_single_aux s tol xs s 1 _ _ _ _ _ _ _ _ _ (le_refl 1)
    (by simp [sub_self]; linarith) hxs]
  norm_num

/-- C9 witness: seed 0, matched values 1 and -1 within tolerance 4 — the
running mean is (0 + 1 - 1) / 3 = 0 and the counter 3. -/
theorem roi_running_mean_incremental_witness :
    meanView (runAdds (singleSlot 0 4 2)
      (([1, -1] : List ℚ).map (fun x => ([x], [1])))) =
      Except.ok ([(0 + ([1, -1] : List ℚ).sum) /
        (1 + (([1, -1] : List ℚ).length : ℚ))],
        [1 + (([1, -1] : List ℚ).length : ℚ)]) :=
  roi_running_mean_incremental 0 4 [1, -1] 2 (by norm_num)
    (by intro x hx
        simp only [List.mem_cons, List.mem_singleton] at hx
        rcases hx with rfl | rfl | h3
        · norm_num
        · norm_num
        · simp at h3)
